import Mathlib

/-!
Verification development for the multi-source stock quote reconciliation and
safe-indicator engine of the gupiaoTool repository.

The Python code is embedded shallowly over the rationals: every float field
becomes a rational number, optional or missing values become Option, and the
Python dict of source quotes becomes an association list in insertion order.
All embedded definitions are computable, so every concrete instance can be
settled by evaluation.
-/

set_option autoImplicit false
set_option maxRecDepth 16000

namespace Gupiao

/-- A raw quote from one data source, as built in get_multi_source_data of
improved_stock_analyzer.py.  Only the fields that the embedded logic reads
are kept (price, volume, amount, change_pct); the remaining fields
(high, low, open, prev_close, timestamp) are carried through unchanged by the
Python code and never inspected by the reconciliation or validation logic. -/
structure Quote where
  price : ℚ
  volume : ℚ
  amount : ℚ
  change_pct : ℚ
deriving DecidableEq, Repr

/-- The survivors of the per-source consistency filter in
validate_data_consistency (improved_stock_analyzer.py, lines 119-130): a
source is kept when its price and volume are positive and, when its turnover
amount is positive, the price implied by turnover / (volume * 100) deviates
from the reported price by a relative amount below 0.5.  Each survivor is
paired with its estimated price (the third component of the Python tuple).
The Python value float(inf), used when price is not positive, always fails
the comparison with 0.5, which the guard price > 0 reflects. -/
def validSources (sources : List (String × Quote)) : List (String × Quote × ℚ) :=
  sources.filterMap fun sd =>
    if sd.2.price > 0 ∧ sd.2.volume > 0 then
      if sd.2.amount > 0 then
        let estimated_price := if sd.2.volume > 0 then sd.2.amount / (sd.2.volume * 100) else 0
        if sd.2.price > 0 ∧ |estimated_price - sd.2.price| / sd.2.price < (1/2 : ℚ) then
          some (sd.1, sd.2, estimated_price)
        else none
      else some (sd.1, sd.2, sd.2.price)
    else none

/-- The selection key used by the Python max call in
validate_data_consistency: the estimated price when positive, otherwise the
reported price of the source. -/
def selKey (s : String × Quote × ℚ) : ℚ :=
  if s.2.2 > 0 then s.2.2 else s.2.1.price

/-- The Python builtin max over a nonempty list under a key function: it
replaces the current best only on a strictly greater key, hence keeps the
first of several key-maximal elements. -/
def pyMax {α : Type} (key : α → ℚ) : List α → Option α
  | [] => none
  | x :: xs => some (xs.foldl (fun acc y => if key y > key acc then y else acc) x)

/-- Embeds validate_data_consistency of improved_stock_analyzer.py
(lines 108-137).  The dict of sources becomes an association list in
insertion order; the returned pair is the selected quote (none when no data
survives) and the method string.  The numeric interpolation of the source
count is kept; all other f-string braces in the source contain variables
already reflected here. -/
def validate_data_consistency (sources : List (String × Quote)) : Option Quote × String :=
  if sources.length = 0 then
    (none, "No data available")
  else if sources.length = 1 then
    match sources with
    | [] => (none, "No data available")
    | (name, data) :: _ => (some data, "Single source: " ++ name)
  else
    let vs := validSources sources
    match pyMax selKey vs with
    | none => (none, "No consistent data found")
    | some best =>
        (some best.2.1,
         "Selected from " ++ toString vs.length ++ " sources, based on " ++ best.1)

/-- Embeds validate_data_reasonableness of improved_stock_analyzer.py
(lines 147-164).  The interpolated numeric values of the Python messages are
elided; only the fixed message text is kept. -/
def validate_data_reasonableness (data : Quote) : Bool × String :=
  if data.price ≤ 0 ∨ data.price > 1000 then
    (false, "Price is out of reasonable range")
  else if |data.change_pct| > 20 then
    (false, "Change percentage is too extreme")
  else if data.volume < 0 then
    (false, "Volume is negative")
  else
    (true, "Data is reasonable")

/-- Embeds validate_trade_data of improved_stock_analyzer.py
(lines 179-194).  The price is optional, mirroring the Python None case; the
Python truthiness test, price and volume and price > 0 and volume > 0,
becomes the explicit guard below.  Interpolated numbers in the mismatch
message are elided. -/
def validate_trade_data_imp (volume : ℚ) (amount : Option ℚ) (price : Option ℚ) :
    Bool × String :=
  if volume ≤ 0 then (false, "成交量必须大于0")
  else
    match amount with
    | none => (false, "成交额不能为负数或None")
    | some a =>
      if a < 0 then (false, "成交额不能为负数或None")
      else
        match price with
        | some p =>
          if p ≠ 0 ∧ volume ≠ 0 ∧ p > 0 ∧ volume > 0 then
            let estimated_amount := p * volume * 100
            if |a - estimated_amount| / estimated_amount > (1/2 : ℚ) ∧ a ≠ 0 then
              (false, "成交额与价格、成交量不匹配")
            else (true, "数据合理")
          else (true, "数据合理")
        | none => (true, "数据合理")

/-- Embeds validate_trade_data of multi_source_stock_analyzer.py
(lines 77-94).  It differs from the improved_stock_analyzer version in the
mismatch branch: a positive amount is rejected on a relative mismatch above
0.5, and an amount of exactly zero is rejected whenever the estimated amount
is positive. -/
def validate_trade_data_ms (volume : ℚ) (amount : Option ℚ) (price : Option ℚ) :
    Bool × String :=
  if volume ≤ 0 then (false, "成交量必须大于0")
  else
    match amount with
    | none => (false, "成交额不能为负数或None")
    | some a =>
      if a < 0 then (false, "成交额不能为负数或None")
      else
        match price with
        | some p =>
          if p ≠ 0 ∧ volume ≠ 0 ∧ p > 0 ∧ volume > 0 then
            let estimated_amount := p * volume * 100
            if a > 0 ∧ |a - estimated_amount| / estimated_amount > (1/2 : ℚ) then
              (false, "成交额与价格、成交量不匹配")
            else if a = 0 ∧ estimated_amount > 0 then
              (false, "成交额为0但根据价格和成交量计算应为正")
            else (true, "数据合理")
          else (true, "数据合理")
        | none => (true, "数据合理")

/-- The result record assembled by get_accurate_trade_data of
enhanced_stock_analyzer_fixed.py: the quality label, the data_source string,
and the quote carried into the final data (none when no source supplied
any data). -/
structure FinalData where
  quality : String
  source : String
  quote : Option Quote
deriving DecidableEq, Repr

/-- Embeds the validation and integration part of get_accurate_trade_data of
enhanced_stock_analyzer_fixed.py (lines 52-152, integration from line 96).
The network fetches that
fill primary_data (akshare) and secondary_data (easyquotation) are external
collaborators; this function takes their results as inputs, as the Python
code does from line 96 on.  An absent source is the Python None or empty
dict, which are both falsy. -/
def get_accurate_trade_data (primary secondary : Option Quote) : FinalData :=
  match primary with
  | some p =>
    if p.volume > 0 ∧ p.amount > 0 ∧ p.price > 0 then
      let calc_price := p.amount / (p.volume * 100)
      if |calc_price - p.price| / p.price < (1/2 : ℚ) then
        { quality := "high", source := "akshare_verified", quote := some p }
      else
        match secondary with
        | some s => { quality := "medium", source := "mixed", quote := some s }
        | none => { quality := "low", source := "akshare_unverified", quote := some p }
    else if p.volume > 0 ∧ p.amount = 0 then
      { quality := "medium", source := "akshare_incomplete", quote := some p }
    else
      { quality := "low", source := "akshare_incomplete", quote := some p }
  | none =>
    match secondary with
    | some s =>
      if s.volume > 0 ∧ s.amount > 0 ∧ s.price > 0 then
        let calc_price := s.amount / (s.volume * 100)
        if |calc_price - s.price| / s.price < (1/2 : ℚ) then
          { quality := "medium", source := "easyquotation_verified", quote := some s }
        else
          { quality := "low", source := "easyquotation_unverified", quote := some s }
      else
        { quality := "low", source := "easyquotation_incomplete", quote := some s }
    | none => { quality := "unknown", source := "none", quote := none }

/-- A raw Python value reaching safe_float_conversion: None, a number, or a
string. -/
inductive PyVal where
  | null : PyVal
  | num : ℚ → PyVal
  | str : String → PyVal
deriving DecidableEq, Repr

/-- The four replace calls of safe_float_conversion remove every occurrence
of the comma, the percent sign, and the two magnitude suffix characters; as
the four characters are distinct, the chain of replacements with the empty
string equals filtering them out. -/
def stripChars (s : String) : String :=
  String.mk (s.data.filter fun c => c ≠ ',' ∧ c ≠ '%' ∧ c ≠ '亿' ∧ c ≠ '万')

/-- True when every character of the string is a decimal digit. -/
def isDigitStr (s : String) : Bool :=
  s.data.all Char.isDigit

/-- The natural number denoted by a string of decimal digits. -/
def digitsToNat (s : String) : ℕ :=
  s.data.foldl (fun n c => 10 * n + (c.toNat - 48)) 0

/-- Models the Python builtin float applied to a string, restricted to plain
decimal literals: an optional sign, then digits with an optional decimal
point, with at least one digit present.  Python also accepts exponents,
whitespace and the inf and nan spellings; none of those shapes occur in the
claims and all non-literal strings are mapped to none, which
safe_float_conversion turns into its default, exactly as the Python
ValueError branch does. -/
def pyFloat (s : String) : Option ℚ :=
  let signAndRest : ℚ × List Char :=
    match s.data with
    | '-' :: cs => (-1, cs)
    | '+' :: cs => (1, cs)
    | cs => (1, cs)
  let sign := signAndRest.1
  let body := String.mk signAndRest.2
  match body.splitOn "." with
  | [a] =>
      if isDigitStr a ∧ a.length > 0 then some (sign * digitsToNat a) else none
  | [a, b] =>
      if isDigitStr a ∧ isDigitStr b ∧ (a.length > 0 ∨ b.length > 0) then
        some (sign * ((digitsToNat a : ℚ) + (digitsToNat b : ℚ) / 10 ^ b.length))
      else none
  | _ => none

/-- Embeds safe_float_conversion, whose body is character for character the
same in multi_source_stock_analyzer.py (lines 45-55),
improved_stock_analyzer.py (lines 167-177) and
enhanced_stock_analyzer_fixed.py: None gives the default, a string is
stripped of commas, percent signs and the two magnitude suffixes and then
parsed, any parse failure gives the default, and a number is returned as a
float. -/
def safe_float_conversion (value : PyVal) (default : ℚ) : ℚ :=
  match value with
  | PyVal.null => default
  | PyVal.num q => q
  | PyVal.str s => (pyFloat (stripChars s)).getD default

/-- One exponential moving average pass as TA-Lib computes it: the value at
input index start is the simple average of the period inputs ending there,
and each later input x updates the running value prev to
prev + (x - prev) * (2 / (period + 1)).  The returned list holds the values
for input indices start, start + 1, and so on. -/
def taEMAfrom (period start : ℕ) (xs : List ℚ) : List ℚ :=
  let seed := ((xs.drop (start + 1 - period)).take period).sum / (period : ℚ)
  (xs.drop (start + 1)).scanl (fun prev x => prev + (x - prev) * (2 / ((period : ℚ) + 1))) seed

/-- Pads a tail of computed values to the full output length the TA-Lib
Python wrapper returns: 33 leading NaN entries (modelled as none) followed by
the computed values.  33 is the shared MACD lookback,
(slow - 1) + (signal - 1) = 25 + 8, and applies to all three outputs. -/
def padOut (l : List ℚ) : List (Option ℚ) :=
  List.replicate 33 none ++ l.map some

/-- Models talib.MACD with fastperiod 12, slowperiod 26 and signalperiod 9 on
a list of finite inputs.  TA-Lib seeds both price EMAs at input index 25
(slow - 1): the slow EMA with the average of inputs 0 to 25 and the fast EMA
with the average of inputs 14 to 25, subtracts them into the MACD line, runs
a 9-period EMA over that line for the signal, and emits all three outputs
from the same begin index 33; the Python wrapper fills the first 33 entries
of each output with NaN.  When fewer than 34 inputs are supplied every entry
of every output is NaN. -/
def talibMACD (xs : List ℚ) :
    List (Option ℚ) × List (Option ℚ) × List (Option ℚ) :=
  if xs.length < 34 then
    (List.replicate xs.length none, List.replicate xs.length none,
     List.replicate xs.length none)
  else
    let fastE := taEMAfrom 12 25 xs
    let slowE := taEMAfrom 26 25 xs
    let macdline := List.zipWith (fun a b => a - b) fastE slowE
    let signalE := taEMAfrom 9 8 macdline
    let macdOut := macdline.drop 8
    let hist := List.zipWith (fun a b => a - b) macdOut signalE
    (padOut macdOut, padOut signalE, padOut hist)

/-- The Python access arr[-1] guarded by len(arr) > 0 and not isnan(arr[-1]):
the last entry of the output array when it exists and is finite, else
none. -/
def lastVal (l : List (Option ℚ)) : Option ℚ :=
  l.getLast?.bind id

/-- The triple of final values (macd[-1], macd_signal[-1], macd_hist[-1])
read off the talib.MACD outputs, each none when missing or NaN. -/
def macdTriple (xs : List ℚ) : Option ℚ × Option ℚ × Option ℚ :=
  let t := talibMACD xs
  (lastVal t.1, lastVal t.2.1, lastVal t.2.2)

/-- Embeds safe_macd_calculation of multi_source_stock_analyzer.py
(lines 96-123): too short an input gives the absent triple, None and NaN
entries are filtered out, the cleaned series must still reach min_periods,
and the final talib values are returned with NaN mapped to none. -/
def safe_macd_ms (close_prices : List (Option ℚ)) (min_periods : ℕ) :
    Option ℚ × Option ℚ × Option ℚ :=
  if close_prices.length < min_periods then (none, none, none)
  else
    let clean_prices := close_prices.filterMap id
    if clean_prices.length < min_periods then (none, none, none)
    else macdTriple clean_prices

/-- Embeds safe_macd_calculation of improved_stock_analyzer.py
(lines 196-230): as the multi_source version, plus the artifact guard: when
the final MACD value is present with absolute value below 1e-10 and the raw
input series (sets in Python deduplicate) holds more than one distinct
element, the whole triple is replaced by the absent triple. -/
def safe_macd_imp (close_prices : List (Option ℚ)) (min_periods : ℕ) :
    Option ℚ × Option ℚ × Option ℚ :=
  if close_prices.length < min_periods then (none, none, none)
  else
    let clean_prices := close_prices.filterMap id
    if clean_prices.length < min_periods then (none, none, none)
    else
      let t := macdTriple clean_prices
      match t.1 with
      | some v =>
          if |v| < 1 / 10 ^ 10 ∧ close_prices.dedup.length > 1 then
            (none, none, none)
          else t
      | none => t

/-- The arithmetic mean of a list of rationals; on the empty list the
rational division by zero gives 0, a case every caller below guards
against. -/
def listMean (l : List ℚ) : ℚ :=
  l.sum / (l.length : ℚ)

/-- The population variance, matching numpy std squared with the default
delta degrees of freedom 0. -/
def popVariance (l : List ℚ) : ℚ :=
  (l.map fun x => (x - listMean l) ^ 2).sum / (l.length : ℚ)

/-- The average return computed by calculate_sharpe_ratio of
multi_source_stock_analyzer.py (the local avg_return): with more than 10
returns the mean is taken over the ascending sorted returns between index
floor(0.05 n) and floor(0.95 n) when that slice is nonempty, else the plain
mean. -/
def trimmed_avg (rs : List ℚ) : ℚ :=
  if 10 < rs.length then
    if 5 * rs.length / 100 < 95 * rs.length / 100 then
      listMean (((rs.insertionSort (fun a b => a ≤ b)).drop (5 * rs.length / 100)).take
        (95 * rs.length / 100 - 5 * rs.length / 100))
    else listMean rs
  else listMean rs

/-- The annualised volatility of calculate_sharpe_ratio (the local
volatility): the numpy population standard deviation times the square root
of 252, forcing the embedding into the reals. -/
noncomputable def sharpe_volatility (rs : List ℚ) : ℝ :=
  Real.sqrt (popVariance rs) * Real.sqrt 252

/-- The ratio computed by calculate_sharpe_ratio (the local sharpe): the
annualised trimmed average return, avg_return * 252, minus the risk-free
rate, divided by the annualised volatility. -/
noncomputable def sharpe_value (rs : List ℚ) (risk_free_rate : ℚ) : ℝ :=
  (((trimmed_avg rs * 252 : ℚ) : ℝ) - (risk_free_rate : ℝ)) / sharpe_volatility rs

/-- Embeds calculate_sharpe_ratio of multi_source_stock_analyzer.py
(lines 176-219).  Non-finite returns are the none entries and are filtered
out; the Python locals avg_return, annual_return, volatility and sharpe are
the named helper functions above; the zero test on the volatility and the
magnitude bound 10 on the ratio mirror the two guard branches returning
None. -/
noncomputable def calculate_sharpe (returns : List (Option ℚ))
    (risk_free_rate : ℚ) : Option ℝ :=
  if returns.length = 0 then none
  else if (returns.filterMap id).length = 0 then none
  else if sharpe_volatility (returns.filterMap id) = 0 then none
  else if 10 < |sharpe_value (returns.filterMap id) risk_free_rate| then none
  else some (sharpe_value (returns.filterMap id) risk_free_rate)

/-- Modelled from the spec, section 4.3 step 4: the tie-break key the spec
prescribes for reconciliation, max(impliedPrice, reportedPrice) of a
surviving source.  Stated only to compare the spec against the embedded
code, which orders survivors by selKey instead. -/
def specMaxKey (s : String × Quote × ℚ) : ℚ :=
  max s.2.2 s.2.1.price

/-- A source quote whose turnover-implied price 1000 / (1 * 100) = 10
deviates from its reported price 19 by 9/19 < 0.5, so it survives the
filter with estimated price 10 while max(implied, reported) is 19. -/
def qA : Quote := { price := 19, volume := 1, amount := 1000, change_pct := 0 }

/-- A source quote with no turnover amount: it survives the filter with its
reported price 15 as estimated price. -/
def qB : Quote := { price := 15, volume := 1, amount := 0, change_pct := 0 }

/-- A quote failing every check: zero price and zero volume. -/
def q0 : Quote := { price := 0, volume := 0, amount := 0, change_pct := 0 }

/-- A primary quote whose turnover-implied price 1000 / (1 * 100) = 10
equals its reported price exactly. -/
def q3 : Quote := { price := 10, volume := 1, amount := 1000, change_pct := 0 }

/-- The two-source input on which the embedded reconciler and the tie-break
rule of the spec pick different winners. -/
def cexSources : List (String × Quote) := [("a", qA), ("b", qB)]

/-- A 34-sample price series that is constant except for a perturbation of
1e-12 in its oldest sample: the fast EMA seed does not see the perturbation,
so the final MACD value is a nonzero rational of magnitude far below
1e-10. -/
def pertP : List ℚ := (1 / 10 ^ 12) :: List.replicate 33 0

/-- A constant 34-sample price series. -/
def constP : List ℚ := List.replicate 34 (5 : ℚ)

/-! Helper lemmas about the Python max reduction. -/

theorem foldlMax_mem {α : Type} (key : α → ℚ) (acc : α) (l : List α) :
    l.foldl (fun a y => if key y > key a then y else a) acc = acc ∨
      l.foldl (fun a y => if key y > key a then y else a) acc ∈ l := by
  induction l generalizing acc with
  | nil => left; rfl
  | cons x xs ih =>
    simp only [List.foldl_cons]
    rcases ih (if key x > key acc then x else acc) with h | h
    · by_cases hx : key x > key acc
      · right
        rw [h, if_pos hx]
        exact List.mem_cons_self x xs
      · left
        rw [h, if_neg hx]
    · right
      exact List.mem_cons_of_mem x h

theorem foldlMax_ge_acc {α : Type} (key : α → ℚ) (acc : α) (l : List α) :
    key acc ≤ key (l.foldl (fun a y => if key y > key a then y else a) acc) := by
  induction l generalizing acc with
  | nil => exact le_refl _
  | cons x xs ih =>
    simp only [List.foldl_cons]
    refine le_trans ?_ (ih (if key x > key acc then x else acc))
    by_cases hx : key x > key acc
    · rw [if_pos hx]
      exact le_of_lt hx
    · rw [if_neg hx]

theorem foldlMax_ge_mem {α : Type} (key : α → ℚ) (acc : α) (l : List α) :
    ∀ x ∈ l, key x ≤ key (l.foldl (fun a y => if key y > key a then y else a) acc) := by
  induction l generalizing acc with
  | nil => intro x hx; exact absurd hx (List.not_mem_nil x)
  | cons y ys ih =>
    intro x hx
    simp only [List.foldl_cons]
    rcases List.mem_cons.mp hx with rfl | hx'
    · refine le_trans ?_ (foldlMax_ge_acc key _ ys)
      by_cases hy : key x > key acc
      · rw [if_pos hy]
      · rw [if_neg hy]
        exact le_of_not_lt hy
    · exact ih _ x hx'

theorem pyMax_mem {α : Type} {key : α → ℚ} {l : List α} {m : α}
    (h : pyMax key l = some m) : m ∈ l := by
  cases l with
  | nil => exact absurd h (by simp [pyMax])
  | cons x xs =>
    have hm : xs.foldl (fun a y => if key y > key a then y else a) x = m :=
      Option.some_injective _ h
    rcases foldlMax_mem key x xs with h' | h'
    · rw [hm] at h'
      rw [h']
      exact List.mem_cons_self x xs
    · rw [hm] at h'
      exact List.mem_cons_of_mem x h'

theorem pyMax_maximal {α : Type} {key : α → ℚ} {l : List α} {m : α}
    (h : pyMax key l = some m) : ∀ x ∈ l, key x ≤ key m := by
  cases l with
  | nil => intro x hx; exact absurd hx (List.not_mem_nil x)
  | cons y ys =>
    have hm : ys.foldl (fun a y => if key y > key a then y else a) y = m :=
      Option.some_injective _ h
    intro x hx
    rcases List.mem_cons.mp hx with rfl | hx'
    · rw [← hm]
      exact le_trans (le_refl _) (foldlMax_ge_acc key x ys)
    · rw [← hm]
      exact foldlMax_ge_mem key y ys x hx'

theorem pyMax_eq_none {α : Type} {key : α → ℚ} {l : List α} :
    pyMax key l = none ↔ l = [] := by
  cases l with
  | nil => simp [pyMax]
  | cons x xs => simp [pyMax]

/-- Claim C1, counterexample: on the two-source input cexSources both
sources survive the filter, the source a is the unique survivor maximizing
the key max(impliedPrice, reportedPrice) the claim prescribes, yet the
reconciler returns the quote of source b, which differs from the quote of
source a.  The code orders survivors by the implied price alone. -/
theorem claim1_counterexample :
    ("a", qA, (10 : ℚ)) ∈ validSources cexSources ∧
    (∀ t ∈ validSources cexSources,
      t ≠ ("a", qA, (10 : ℚ)) → specMaxKey t < specMaxKey ("a", qA, (10 : ℚ))) ∧
    (validate_data_consistency cexSources).1 = some qB ∧
    qB ≠ qA := by
  with_unfolding_all decide

/-- Claim C1, amended: among two or more supplied sources with at least one
survivor of the consistency filter, the reconciler returns the quote of a
surviving source whose selection key — the turnover-implied price when the
turnover amount is positive, else the reported price — is maximal among all
survivors (the first such survivor in insertion order on ties). -/
theorem claim1_amended (sources : List (String × Quote))
    (h2 : 2 ≤ sources.length) (hvs : validSources sources ≠ []) :
    ∃ s, s ∈ validSources sources ∧
      (validate_data_consistency sources).1 = some s.2.1 ∧
      ∀ t ∈ validSources sources, selKey t ≤ selKey s := by
  have h0 : ¬ sources.length = 0 := by omega
  have h1 : ¬ sources.length = 1 := by omega
  cases hm : pyMax selKey (validSources sources) with
  | none => exact absurd (pyMax_eq_none.mp hm) hvs
  | some m =>
    refine ⟨m, pyMax_mem hm, ?_, pyMax_maximal hm⟩
    simp only [validate_data_consistency, if_neg h0, if_neg h1, hm]

/-- Claim C1, witness: the amended claim applied to the concrete two-source
input cexSources. -/
theorem claim1_witness :
    ∃ s, s ∈ validSources cexSources ∧
      (validate_data_consistency cexSources).1 = some s.2.1 ∧
      ∀ t ∈ validSources cexSources, selKey t ≤ selKey s :=
  claim1_amended cexSources (by decide) (by with_unfolding_all decide)

/-- Claim C2, counterexample: a single-element input whose only quote fails
the reasonableness check (zero price) and the consistency filter is
nevertheless returned as the winning quote: the reconciler short-circuits
singleton inputs before any validation. -/
theorem claim2_counterexample :
    validate_data_consistency [("s", q0)] = (some q0, "Single source: s") ∧
    (validate_data_reasonableness q0).1 = false ∧
    validSources [("s", q0)] = [] := by
  with_unfolding_all decide

/-- Claim C2, amended: reconciliation over zero sources returns none with
reason No data available, and over two or more sources that all fail the
consistency filter returns none with reason No consistent data found;
moreover with two or more sources any winning quote comes from a source
that passed the filter.  A single-element input, however, is returned
directly without any check. -/
theorem claim2_amended (sources : List (String × Quote)) :
    (sources = [] → validate_data_consistency sources = (none, "No data available")) ∧
    (2 ≤ sources.length → validSources sources = [] →
      validate_data_consistency sources = (none, "No consistent data found")) ∧
    (2 ≤ sources.length → ∀ q, (validate_data_consistency sources).1 = some q →
      ∃ s, s ∈ validSources sources ∧ s.2.1 = q) := by
  refine ⟨?_, ?_, ?_⟩
  · intro h
    subst h
    rfl
  · intro h2 hvs
    have h0 : ¬ sources.length = 0 := by omega
    have h1 : ¬ sources.length = 1 := by omega
    have hm : pyMax selKey (validSources sources) = none := pyMax_eq_none.mpr hvs
    simp only [validate_data_consistency, if_neg h0, if_neg h1, hm]
  · intro h2 q hq
    have h0 : ¬ sources.length = 0 := by omega
    have h1 : ¬ sources.length = 1 := by omega
    cases hm : pyMax selKey (validSources sources) with
    | none =>
      simp only [validate_data_consistency, if_neg h0, if_neg h1, hm] at hq
      exact absurd hq (by simp)
    | some m =>
      simp only [validate_data_consistency, if_neg h0, if_neg h1, hm] at hq
      exact ⟨m, pyMax_mem hm, Option.some_injective _ hq⟩

/-- Claim C2, witness: the amended claim applied to the empty input and to a
two-source input whose quotes both fail every check. -/
theorem claim2_witness :
    validate_data_consistency [] = (none, "No data available") ∧
    validate_data_consistency [("x", q0), ("y", q0)] = (none, "No consistent data found") :=
  ⟨(claim2_amended []).1 rfl,
   (claim2_amended [("x", q0), ("y", q0)]).2.1 (by decide) (by with_unfolding_all decide)⟩

/-- Claim C3, counterexample: with only the primary akshare source present
(no second source at all) and its own turnover-implied price agreeing with
its reported price, the result is labelled high — the label does not require
two independent sources. -/
theorem claim3_counterexample :
    get_accurate_trade_data (some q3) none =
      { quality := "high", source := "akshare_verified", quote := some q3 } := by
  with_unfolding_all rfl

/-- Claim C3, amended: the quality label high is assigned exactly when the
primary (akshare) quote is present with positive volume, turnover amount and
price, and its turnover-implied price amount / (volume * 100) deviates from
its reported price by a relative amount below 0.5; the secondary source is
never consulted for the high label, so a single source suffices. -/
theorem claim3_amended (primary secondary : Option Quote) :
    (get_accurate_trade_data primary secondary).quality = "high" ↔
    ∃ q, primary = some q ∧ 0 < q.volume ∧ 0 < q.amount ∧ 0 < q.price ∧
      |q.amount / (q.volume * 100) - q.price| / q.price < (1/2 : ℚ) := by
  cases primary with
  | none =>
    constructor
    · intro h
      exfalso
      cases secondary with
      | none =>
        exact absurd (show ("unknown" : String) = "high" from h) (by decide)
      | some s =>
        simp only [get_accurate_trade_data] at h
        by_cases h1 : s.volume > 0 ∧ s.amount > 0 ∧ s.price > 0
        · rw [if_pos h1] at h
          by_cases h2 : |s.amount / (s.volume * 100) - s.price| / s.price < (1/2 : ℚ)
          · rw [if_pos h2] at h
            exact absurd (show ("medium" : String) = "high" from h) (by decide)
          · rw [if_neg h2] at h
            exact absurd (show ("low" : String) = "high" from h) (by decide)
        · rw [if_neg h1] at h
          exact absurd (show ("low" : String) = "high" from h) (by decide)
    · rintro ⟨q, hq, -⟩
      exact absurd hq (by simp)
  | some p =>
    simp only [get_accurate_trade_data]
    by_cases h1 : p.volume > 0 ∧ p.amount > 0 ∧ p.price > 0
    · rw [if_pos h1]
      by_cases h2 : |p.amount / (p.volume * 100) - p.price| / p.price < (1/2 : ℚ)
      · rw [if_pos h2]
        constructor
        · intro h
          exact ⟨p, rfl, h1.1, h1.2.1, h1.2.2, h2⟩
        · intro h
          rfl
      · rw [if_neg h2]
        constructor
        · intro h
          exfalso
          cases secondary with
          | none => exact absurd (show ("low" : String) = "high" from h) (by decide)
          | some s => exact absurd (show ("medium" : String) = "high" from h) (by decide)
        · rintro ⟨q, hq, -, -, -, hdev⟩
          obtain rfl : p = q := Option.some_injective _ hq
          exact absurd hdev h2
    · rw [if_neg h1]
      constructor
      · intro h
        exfalso
        by_cases h3 : p.volume > 0 ∧ p.amount = 0
        · rw [if_pos h3] at h
          exact absurd (show ("medium" : String) = "high" from h) (by decide)
        · rw [if_neg h3] at h
          exact absurd (show ("low" : String) = "high" from h) (by decide)
      · rintro ⟨q, hq, hv, ha, hp, -⟩
        obtain rfl : p = q := Option.some_injective _ hq
        exact absurd ⟨hv, ha, hp⟩ h1

/-- Claim C5, counterexample: the string 1.5亿 is converted to 1.5, the
numeric prefix with the suffix merely stripped, not to
1.5 multiplied by ten to the eighth as the claim states. -/
theorem claim5_counterexample :
    safe_float_conversion (PyVal.str "1.5亿") 0 = 3/2 ∧
    (3/2 : ℚ) ≠ 15 * 10 ^ 7 := by
  with_unfolding_all decide

/-- Helper: stripping distributes over string append. -/
theorem stripChars_append (s t : String) :
    stripChars (s ++ t) = stripChars s ++ stripChars t := by
  have hdata : (s ++ t).data = s.data ++ t.data := String.data_append s t
  show String.mk ((s ++ t).data.filter _) = String.mk (s.data.filter _) ++ String.mk (t.data.filter _)
  rw [hdata, List.filter_append]
  rfl

/-- Claim C5, amended: for a string that parses as a plain decimal literal
and contains none of the stripped characters, appending the magnitude suffix
亿 or 万 leaves the converted value equal to the bare numeric prefix — no
scaling by ten to the eighth or ten to the fourth is applied. -/
theorem claim5_amended (s : String) (q d : ℚ)
    (hparse : pyFloat s = some q) (hclean : stripChars s = s) :
    safe_float_conversion (PyVal.str (s ++ "亿")) d = q ∧
    safe_float_conversion (PyVal.str (s ++ "万")) d = q := by
  have hy : stripChars "亿" = "" := by with_unfolding_all decide
  have hw : stripChars "万" = "" := by with_unfolding_all decide
  constructor
  · show (pyFloat (stripChars (s ++ "亿"))).getD d = q
    rw [stripChars_append, hclean, hy]
    rw [show s ++ "" = s from by simp]
    rw [hparse]
    rfl
  · show (pyFloat (stripChars (s ++ "万"))).getD d = q
    rw [stripChars_append, hclean, hw]
    rw [show s ++ "" = s from by simp]
    rw [hparse]
    rfl

/-- Claim C5, witness: the amended claim applied to the prefix 1.5, which
parses to 3/2 and is unchanged by stripping. -/
theorem claim5_witness :
    safe_float_conversion (PyVal.str ("1.5" ++ "亿")) 0 = 3/2 ∧
    safe_float_conversion (PyVal.str ("1.5" ++ "万")) 0 = 3/2 :=
  claim5_amended "1.5" (3/2) 0 (by with_unfolding_all decide) (by with_unfolding_all decide)

/-- Claim C6: the claim is right about the intended behaviour and about the
multi_source_stock_analyzer implementation, which rejects a zero turnover
amount against any positive price and volume; the improved_stock_analyzer
implementation, however, accepts exactly that input, because its mismatch
test additionally requires the amount to be nonzero, contradicting the demo
script of the repository, which labels the zero-amount call on this very
class as wrong trade data. -/
theorem claim6_bug (p v : ℚ) (hp : 0 < p) (hv : 0 < v) :
    (validate_trade_data_ms v (some 0) (some p)).1 = false ∧
    validate_trade_data_imp 100 (some 0) (some 50) = (true, "数据合理") := by
  constructor
  · have hv0 : ¬ v ≤ 0 := not_le.mpr hv
    have hest : 0 < p * v * 100 := by positivity
    simp only [validate_trade_data_ms, if_neg hv0]
    rw [if_neg (by norm_num : ¬ (0 : ℚ) < 0)]
    rw [if_pos ⟨ne_of_gt hp, ne_of_gt hv, hp, hv⟩]
    rw [if_neg (by simp : ¬ ((0 : ℚ) > 0 ∧ |(0 : ℚ) - p * v * 100| / (p * v * 100) > (1/2 : ℚ)))]
    rw [if_pos ⟨trivial, hest⟩]
  · with_unfolding_all rfl

/-- Claim C6, witness: the theorem applied at the concrete failing input of
the claim, volume 100, turnover 0, price 50. -/
theorem claim6_witness :
    (validate_trade_data_ms 100 (some 0) (some 50)).1 = false ∧
    validate_trade_data_imp 100 (some 0) (some 50) = (true, "数据合理") :=
  claim6_bug 50 100 (by norm_num) (by norm_num)

/-- Claim C10: whenever the supplied price is None or zero, both embedded
versions of validate_trade_data skip the turnover-versus-estimate check
entirely and report the trade as reasonable, for every positive volume and
every nonnegative turnover amount. -/
theorem claim10_theorem (v a : ℚ) (p : Option ℚ) (hv : 0 < v) (ha : 0 ≤ a)
    (hp : p = none ∨ p = some 0) :
    validate_trade_data_imp v (some a) p = (true, "数据合理") ∧
    validate_trade_data_ms v (some a) p = (true, "数据合理") := by
  have hv0 : ¬ v ≤ 0 := not_le.mpr hv
  have ha0 : ¬ a < 0 := not_lt.mpr ha
  rcases hp with rfl | rfl
  · constructor
    · simp only [validate_trade_data_imp, if_neg hv0, if_neg ha0]
    · simp only [validate_trade_data_ms, if_neg hv0, if_neg ha0]
  · constructor
    · simp only [validate_trade_data_imp, if_neg hv0, if_neg ha0]
      rw [if_neg (by simp)]
    · simp only [validate_trade_data_ms, if_neg hv0, if_neg ha0]
      rw [if_neg (by simp)]

/-- Claim C10, witness: the theorem applied to volume 100, turnover 999 and
price zero. -/
theorem claim10_witness :
    validate_trade_data_imp 100 (some 999) (some 0) = (true, "数据合理") ∧
    validate_trade_data_ms 100 (some 999) (some 0) = (true, "数据合理") :=
  claim10_theorem 100 999 (some 0) (by norm_num) (by norm_num) (Or.inr rfl)

/-- Claim C8, counterexample: two insertion orders of the same two
(sourceId, quote) pairs produce different reconciliation results: the two
sources carry identical quotes, so their selection keys tie, the Python max
keeps the first one seen, and the method string names a different source in
each order. -/
theorem claim8_counterexample :
    ([("a", qB), ("b", qB)] : List (String × Quote)).Perm [("b", qB), ("a", qB)] ∧
    validate_data_consistency [("a", qB), ("b", qB)] ≠
      validate_data_consistency [("b", qB), ("a", qB)] ∧
    (validate_data_consistency [("a", qB), ("b", qB)]).2 =
      "Selected from 2 sources, based on a" ∧
    (validate_data_consistency [("b", qB), ("a", qB)]).2 =
      "Selected from 2 sources, based on b" := by
  refine ⟨List.Perm.swap ("b", qB) ("a", qB) [], ?_, ?_, ?_⟩
  · with_unfolding_all decide
  · with_unfolding_all rfl
  · with_unfolding_all rfl

/-- Claim C8, amended: reconciliation is a pure function of the ordered
input, and it is insensitive to the insertion order whenever no two
survivors of the consistency filter share the same selection key: any two
permutations of the same (sourceId, quote) pairs then yield the same winning
quote and the same method string. -/
theorem claim8_amended (l1 l2 : List (String × Quote)) (hperm : l1.Perm l2)
    (hpw : (validSources l1).Pairwise (fun a b => selKey a ≠ selKey b)) :
    validate_data_consistency l1 = validate_data_consistency l2 := by
  have hlen : l1.length = l2.length := hperm.length_eq
  have hvs : (validSources l1).Perm (validSources l2) := hperm.filterMap _
  by_cases h0 : l1.length = 0
  · have h1 : l1 = [] := List.length_eq_zero.mp h0
    subst h1
    have h2 : l2 = [] := hperm.symm.eq_nil
    subst h2
    rfl
  · by_cases h1 : l1.length = 1
    · obtain ⟨x, hx⟩ := List.length_eq_one.mp h1
      subst hx
      have h2 : l2 = [x] := (List.perm_singleton.mp hperm.symm)
      subst h2
      rfl
    · have h0' : ¬ l2.length = 0 := by omega
      have h1' : ¬ l2.length = 1 := by omega
      cases hm1 : pyMax selKey (validSources l1) with
      | none =>
        have hnil : validSources l1 = [] := pyMax_eq_none.mp hm1
        have hnil2 : validSources l2 = [] := (hnil ▸ hvs).symm.eq_nil
        have hm2 : pyMax selKey (validSources l2) = none := pyMax_eq_none.mpr hnil2
        simp only [validate_data_consistency, if_neg h0, if_neg h1, if_neg h0', if_neg h1',
          hm1, hm2]
      | some m1 =>
        cases hm2 : pyMax selKey (validSources l2) with
        | none =>
          have hnil2 : validSources l2 = [] := pyMax_eq_none.mp hm2
          have hnil : validSources l1 = [] := (hnil2 ▸ hvs).eq_nil
          rw [pyMax_eq_none.mpr hnil] at hm1
          exact absurd hm1 (by simp)
        | some m2 =>
          have hmem1 : m1 ∈ validSources l1 := pyMax_mem hm1
          have hmem2 : m2 ∈ validSources l1 := hvs.mem_iff.mpr (pyMax_mem hm2)
          have hk : selKey m1 = selKey m2 :=
            le_antisymm
              (pyMax_maximal hm2 m1 (hvs.mem_iff.mp hmem1))
              (pyMax_maximal hm1 m2 hmem2)
          have hsym : Symmetric (fun a b : String × Quote × ℚ => selKey a ≠ selKey b) :=
            fun a b h => h.symm
          have hm12 : m1 = m2 := by
            by_contra hne
            exact hpw.forall hsym hmem1 hmem2 hne hk
          subst hm12
          have hlvs : (validSources l1).length = (validSources l2).length := hvs.length_eq
          simp only [validate_data_consistency, if_neg h0, if_neg h1, if_neg h0', if_neg h1',
            hm1, hm2, hlvs]

/-- Claim C8, witness: the amended claim applied to the two orders of the
two-source input with distinct selection keys 10 and 15. -/
theorem claim8_witness :
    validate_data_consistency [("a", qA), ("b", qB)] =
      validate_data_consistency [("b", qB), ("a", qA)] :=
  claim8_amended [("a", qA), ("b", qB)] [("b", qB), ("a", qA)]
    (List.Perm.swap ("b", qB) ("a", qA) [])
    (by with_unfolding_all decide)

/-! Helper lemmas about the shape of the talib.MACD output arrays. -/

theorem lastVal_replicate_none (n : ℕ) :
    lastVal (List.replicate n (none : Option ℚ)) = none := by
  unfold lastVal
  induction n with
  | zero => rfl
  | succ k ih =>
    cases k with
    | zero => rfl
    | succ j =>
      rw [List.replicate_succ, List.replicate_succ, List.getLast?_cons_cons,
        ← List.replicate_succ]
      exact ih

theorem getLast?_map_some (l : List ℚ) :
    (l.map some).getLast? = l.getLast?.map some := by
  induction l with
  | nil => rfl
  | cons x xs ih =>
    cases xs with
    | nil => rfl
    | cons y ys =>
      rw [List.map_cons, List.map_cons, List.getLast?_cons_cons, ← List.map_cons,
        List.getLast?_cons_cons]
      exact ih

theorem lastVal_padOut (l : List ℚ) (h : l ≠ []) :
    (lastVal (padOut l)).isSome = true := by
  unfold lastVal padOut
  rw [List.getLast?_append, getLast?_map_some]
  cases hgl : l.getLast? with
  | none =>
    have := List.getLast?_isSome.mpr h
    rw [hgl] at this
    simp at this
  | some x => rfl

theorem talibMACD_shape (xs : List ℚ) (h : 34 ≤ xs.length) :
    ∃ l1 l2 l3 : List ℚ, talibMACD xs = (padOut l1, padOut l2, padOut l3) ∧
      l1 ≠ [] ∧ l2 ≠ [] ∧ l3 ≠ [] := by
  have hn : ¬ xs.length < 34 := not_lt.mpr h
  unfold talibMACD
  rw [if_neg hn]
  refine ⟨_, _, _, rfl, ?_, ?_, ?_⟩
  · rw [← List.length_pos]
    simp only [List.length_drop, List.length_zipWith, List.length_scanl, taEMAfrom]
    omega
  · rw [← List.length_pos]
    simp only [List.length_scanl, List.length_drop, List.length_zipWith, taEMAfrom]
    omega
  · rw [← List.length_pos]
    simp only [List.length_zipWith, List.length_drop, List.length_scanl, taEMAfrom]
    omega

theorem macdTriple_allOrNothing (xs : List ℚ) :
    ((macdTriple xs).1.isSome = (macdTriple xs).2.1.isSome) ∧
    ((macdTriple xs).2.1.isSome = (macdTriple xs).2.2.isSome) := by
  by_cases h : xs.length < 34
  · simp only [macdTriple, talibMACD, if_pos h, lastVal_replicate_none]
    exact ⟨trivial, trivial⟩
  · obtain ⟨l1, l2, l3, heq, h1, h2, h3⟩ := talibMACD_shape xs (not_lt.mp h)
    simp only [macdTriple, heq, lastVal_padOut _ h1, lastVal_padOut _ h2,
      lastVal_padOut _ h3]
    exact ⟨trivial, trivial⟩

/-- Claim C4: both embedded versions of safe_macd_calculation return an
all-or-nothing triple for every input series and every minimum-sample
requirement: the MACD, signal and histogram components are all present or
all absent, never mixed, because the three talib output arrays share one
begin index. -/
theorem claim4_theorem (close_prices : List (Option ℚ)) (min_periods : ℕ) :
    ((safe_macd_ms close_prices min_periods).1.isSome =
        (safe_macd_ms close_prices min_periods).2.1.isSome ∧
      (safe_macd_ms close_prices min_periods).2.1.isSome =
        (safe_macd_ms close_prices min_periods).2.2.isSome) ∧
    ((safe_macd_imp close_prices min_periods).1.isSome =
        (safe_macd_imp close_prices min_periods).2.1.isSome ∧
      (safe_macd_imp close_prices min_periods).2.1.isSome =
        (safe_macd_imp close_prices min_periods).2.2.isSome) := by
  constructor
  · unfold safe_macd_ms
    by_cases h1 : close_prices.length < min_periods
    · rw [if_pos h1]
      simp
    · rw [if_neg h1]
      by_cases h2 : (close_prices.filterMap id).length < min_periods
      · rw [if_pos h2]
        simp
      · rw [if_neg h2]
        exact macdTriple_allOrNothing _
  · unfold safe_macd_imp
    by_cases h1 : close_prices.length < min_periods
    · rw [if_pos h1]
      simp
    · rw [if_neg h1]
      by_cases h2 : (close_prices.filterMap id).length < min_periods
      · rw [if_pos h2]
        simp
      · rw [if_neg h2]
        cases hm : (macdTriple (close_prices.filterMap id)).1 with
        | none =>
          have hall := macdTriple_allOrNothing (close_prices.filterMap id)
          rw [hm] at hall
          simp only [hm]
          exact hall
        | some v =>
          simp only [hm]
          by_cases h3 : |v| < 1 / 10 ^ 10 ∧ 1 < close_prices.dedup.length
          · rw [if_pos h3]
            simp
          · rw [if_neg h3]
            exact macdTriple_allOrNothing _

theorem filterMap_id_map_some (l : List ℚ) : (l.map some).filterMap id = l := by
  induction l with
  | nil => rfl
  | cons x xs ih => simp [ih]

theorem one_lt_dedup_length {α : Type} [DecidableEq α] {l : List α} {a b : α}
    (ha : a ∈ l) (hb : b ∈ l) (hab : a ≠ b) : 1 < l.dedup.length := by
  have ha1 : a ∈ l.dedup := List.mem_dedup.mpr ha
  have hb1 : b ∈ l.dedup := List.mem_dedup.mpr hb
  cases hld : l.dedup with
  | nil =>
    rw [hld] at ha1
    exact absurd ha1 (List.not_mem_nil a)
  | cons x tl =>
    cases tl with
    | nil =>
      rw [hld] at ha1 hb1
      have h1 : a = x := by simpa using ha1
      have h2 : b = x := by simpa using hb1
      exact absurd (h1.trans h2.symm) hab
    | cons y tl2 =>
      simp only [List.length_cons]
      omega

theorem dedup_length_le_one {α : Type} [DecidableEq α] {l : List α}
    (h : ∀ x, x ∈ l → ∀ y, y ∈ l → x = y) : l.dedup.length ≤ 1 := by
  cases hld : l.dedup with
  | nil => simp
  | cons x tl =>
    cases tl with
    | nil => simp
    | cons y tl2 =>
      exfalso
      have hnd := List.nodup_dedup l
      rw [hld] at hnd
      rcases List.nodup_cons.mp hnd with ⟨hx, -⟩
      have hxmem : x ∈ l := List.mem_dedup.mp (hld ▸ List.mem_cons_self x (y :: tl2))
      have hymem : y ∈ l := List.mem_dedup.mp
        (hld ▸ List.mem_cons_of_mem x (List.mem_cons_self y tl2))
      exact hx ((h x hxmem y hymem) ▸ List.mem_cons_self y tl2)

/-- Claim C7: for a series long enough for the improved safe_macd_calculation
with its default minimum of 26 samples, a computed final MACD value of
magnitude below 1e-10 on a series with two distinct values makes the whole
triple absent, while on a constant series the computed triple is returned
unchanged. -/
theorem claim7_theorem (prices : List ℚ) (h26 : 26 ≤ prices.length) :
    (∀ v, (macdTriple prices).1 = some v → |v| < 1 / 10 ^ 10 →
      (∃ a, a ∈ prices ∧ ∃ b, b ∈ prices ∧ a ≠ b) →
      safe_macd_imp (prices.map some) 26 = (none, none, none)) ∧
    ((∀ x, x ∈ prices → ∀ y, y ∈ prices → x = y) →
      safe_macd_imp (prices.map some) 26 = macdTriple prices) := by
  have hclean : (prices.map some).filterMap id = prices := filterMap_id_map_some prices
  have hnl : ¬ (prices.map some).length < 26 := by
    rw [List.length_map]
    omega
  constructor
  · rintro v hv hsmall ⟨a, ha, b, hb, hab⟩
    have hded : 1 < (prices.map some).dedup.length :=
      one_lt_dedup_length (List.mem_map_of_mem some ha) (List.mem_map_of_mem some hb)
        (by simpa using hab)
    unfold safe_macd_imp
    rw [if_neg hnl, hclean]
    rw [if_neg (by omega : ¬ prices.length < 26)]
    simp only [hv]
    rw [if_pos ⟨hsmall, hded⟩]
  · intro hconst
    have hded : (prices.map some).dedup.length ≤ 1 := by
      refine dedup_length_le_one ?_
      rintro x hx y hy
      obtain ⟨a, ha, rfl⟩ := List.mem_map.mp hx
      obtain ⟨b, hb, rfl⟩ := List.mem_map.mp hy
      exact congrArg some (hconst a ha b hb)
    unfold safe_macd_imp
    rw [if_neg hnl, hclean]
    rw [if_neg (by omega : ¬ prices.length < 26)]
    cases hm : (macdTriple prices).1 with
    | none => simp only [hm]
    | some v =>
      simp only [hm]
      rw [if_neg (by rintro ⟨-, hgt⟩; omega)]

/-- Claim C7, witness: the theorem applied on one side to the perturbed
series pertP, whose final MACD value is a nonzero rational far below 1e-10
in magnitude while the series has two distinct values, and on the other side
to the constant series constP. -/
theorem claim7_witness :
    safe_macd_imp (pertP.map some) 26 = (none, none, none) ∧
    safe_macd_imp (constP.map some) 26 = macdTriple constP := by
  constructor
  · refine (claim7_theorem pertP (by with_unfolding_all decide)).1
      (-(25 ^ 8 : ℚ) / (26 * 10 ^ 12 * 27 ^ 8)) ?_ ?_ ?_
    · with_unfolding_all rfl
    · with_unfolding_all decide
    · exact ⟨1 / 10 ^ 12, List.mem_cons_self _ _,
        0, List.mem_cons_of_mem _ (by simp [pertP, List.mem_replicate]), by
          with_unfolding_all decide⟩
  · exact (claim7_theorem constP (by with_unfolding_all decide)).2
      (by
        intro x hx y hy
        rw [constP] at hx hy
        rw [List.eq_of_mem_replicate hx, List.eq_of_mem_replicate hy])

/-- Claim C9: when the finite entries of the return series have zero
population variance the embedded calculate_sharpe_ratio returns absent, the
division by the zero volatility never being reached; and every value it does
return has absolute value at most 10, any larger computed ratio being
suppressed. -/
theorem claim9_theorem (returns : List (Option ℚ)) (rf : ℚ) :
    (popVariance (returns.filterMap id) = 0 → calculate_sharpe returns rf = none) ∧
    Option.elim (calculate_sharpe returns rf) True (fun x => |x| ≤ 10) := by
  constructor
  · intro hvar
    unfold calculate_sharpe
    by_cases h0 : returns.length = 0
    · rw [if_pos h0]
    · rw [if_neg h0]
      by_cases h1 : (returns.filterMap id).length = 0
      · rw [if_pos h1]
      · rw [if_neg h1]
        rw [if_pos (show sharpe_volatility (returns.filterMap id) = 0 from by
          unfold sharpe_volatility
          rw [hvar, Rat.cast_zero, Real.sqrt_zero, zero_mul])]
  · unfold calculate_sharpe
    by_cases h0 : returns.length = 0
    · rw [if_pos h0]
      exact trivial
    · rw [if_neg h0]
      by_cases h1 : (returns.filterMap id).length = 0
      · rw [if_pos h1]
        exact trivial
      · rw [if_neg h1]
        by_cases h2 : sharpe_volatility (returns.filterMap id) = 0
        · rw [if_pos h2]
          exact trivial
        · rw [if_neg h2]
          by_cases h3 : 10 < |sharpe_value (returns.filterMap id) rf|
          · rw [if_pos h3]
            exact trivial
          · rw [if_neg h3]
            exact le_of_not_lt h3

/-- Claim C9, witness: the zero-variance part of the theorem applied to a
constant two-element return series with the default risk-free rate. -/
theorem claim9_witness : calculate_sharpe [some 1, some 1] (3/100) = none :=
  (claim9_theorem [some 1, some 1] (3/100)).1 (by with_unfolding_all decide)

end Gupiao
